import Mathlib

/-!
Shallow embedding of the PharmAI workflow engine
(`src/services/workflow.py`, `src/services/rules.py`,
`src/models/schemas.py`, `src/models/database.py`).

Modelling choices:
* Machine time (`datetime.utcnow`) is a natural-number clock passed into each
  gateway operation as `now`; the session remembers the last clock value.
* The SQLAlchemy session is a `DB` record holding the working `Store`, the
  list of committed snapshots (`db.commit()` appends the working store to the
  history; a concurrent reader observes exactly the committed snapshots), and
  the auto-increment id counters of the four tables.
* Rule `condition` / `action` columns hold Python text executed with
  `eval` / `exec` against an environment exposing `workflow` and
  `WorkflowState`.  The embedding represents condition and action texts by
  the primitive effects expressible on the env's workflow object — state
  writes, event appends, timestamp writes, event deletion and edits,
  sequencing — plus raising (`malformed`); conditions may perform effects
  before returning or raising (`effThen`), and execution returns the state
  reached together with the raised error, so partial mutation before a
  raise is kept, exactly as on the live ORM objects.  The subset the spec's
  documented action language covers is carved out by `actTame` /
  `condTame` / `RulesTame`.
* `json.dumps` / `json.loads` on string-keyed, string-valued payload
  mappings are embedded as executable character-level functions
  (`json_dumps` / `json_loads`) with escaping of `"` and `\`.
-/

namespace PharmAI

/-- `WorkflowState` enum from `models/schemas.py`. -/
inductive WorkflowState
  | ordered
  | pending_access
  | access_granted
  | dispensed
  | completed
  | failed
deriving DecidableEq, Repr

/-- `TaskState` enum from `models/schemas.py`. -/
inductive TaskState
  | pending
  | in_progress
  | completed
  | failed
deriving DecidableEq, Repr

/-- Embedded action texts.  `exec(rule.action, {}, env)` runs arbitrary
statements against the env's `workflow` ORM object, so an action can do more
than the documented effect forms: the constructors cover the primitive
effects expressible on that object — `workflow.state = WorkflowState.s`
(`setState`), `workflow.events.append(...)` (`appendEvent`),
`workflow.updated_at = workflow.created_at` (`setUpdatedAtCreatedAt`),
`workflow.events.clear()` (`clearEvents`, events are removed by the
delete-orphan cascade), `workflow.events[i].event_type = ty`
(`setEventType`), statement sequencing (`seq`), and text whose execution
raises without a prior effect (`malformed`; a statement list that mutates
and then raises is `seq` of effects with a `malformed` tail). -/
inductive ActExpr
  | setState (s : WorkflowState)
  | appendEvent (ty : String)
  | setUpdatedAtCreatedAt
  | clearEvents
  | setEventType (i : Nat) (ty : String)
  | seq (a b : ActExpr)
  | malformed (text : String)
deriving DecidableEq, Repr

/-- Embedded condition texts.  `eval(rule.condition, {}, env)` evaluates an
arbitrary expression, which may perform side effects on the env's
`workflow` before returning or raising: `workflow.state == WorkflowState.s`
(`stateEq`, pure), an expression performing an effect and then continuing
(`effThen`, e.g. `workflow.events.clear() or <rest>`), and text whose
evaluation raises with no prior effect (`malformed`). -/
inductive CondExpr
  | stateEq (s : WorkflowState)
  | effThen (a : ActExpr) (k : CondExpr)
  | malformed (text : String)
deriving DecidableEq, Repr

/-- Row of the `workflows` table. -/
structure Workflow where
  id : Nat
  name : String
  description : Option String
  state : WorkflowState
  created_at : Nat
  updated_at : Nat
deriving DecidableEq, Repr

/-- Row of the `tasks` table. -/
structure Task where
  id : Nat
  workflow_id : Nat
  name : String
  assigned_to : Option String
  state : TaskState
  created_at : Nat
  updated_at : Nat
deriving DecidableEq, Repr

/-- Row of the `events` table; `payload` is the serialized JSON text column. -/
structure Event where
  id : Nat
  workflow_id : Nat
  event_type : String
  payload : String
  created_at : Nat
deriving DecidableEq, Repr

/-- Row of the `rules` table. -/
structure Rule where
  id : Nat
  name : String
  description : Option String
  condition : CondExpr
  action : ActExpr
deriving DecidableEq, Repr

/-- The four tables of the database. -/
structure Store where
  workflows : List Workflow
  tasks : List Task
  events : List Event
  rules : List Rule
deriving DecidableEq, Repr

/-- A SQLAlchemy session: working store, committed snapshot history,
auto-increment counters and the last observed clock value. -/
structure DB where
  store : Store
  committed : List Store
  nextWorkflowId : Nat
  nextTaskId : Nat
  nextEventId : Nat
  nextRuleId : Nat
  clock : Nat
deriving DecidableEq, Repr

/-- `db.commit()`: the working store becomes the newest committed snapshot. -/
def commit (db : DB) : DB :=
  { db with committed := db.committed ++ [db.store] }

/-- `get_workflow` (workflow.py line 105): first row with the given id. -/
def get_workflow (s : Store) (workflow_id : Nat) : Option Workflow :=
  s.workflows.find? (fun w => w.id == workflow_id)

/-- Write back a mutated workflow row (attribute writes on the ORM object). -/
def setWorkflowRow (s : Store) (w : Workflow) : Store :=
  { s with workflows := s.workflows.map (fun w0 => if w0.id = w.id then w else w0) }

/- ## JSON serialization (`json.dumps` / `json.loads` on string maps) -/

/-- Escape a character for a JSON string literal. -/
def escChar (c : Char) : List Char :=
  if c = '\\' ∨ c = '"' then ['\\', c] else [c]

/-- Escape every character of a string body. -/
def escape : List Char → List Char
  | [] => []
  | c :: rest => escChar c ++ escape rest

/-- A JSON string literal: quote, escaped body, quote. -/
def quoteStr (s : String) : List Char :=
  '"' :: (escape s.data ++ ['"'])

/-- The members of a JSON object, `"k":"v"` separated by commas. -/
def encodeMembers : List (String × String) → List Char
  | [] => []
  | (k, v) :: [] => quoteStr k ++ ':' :: quoteStr v
  | (k, v) :: rest => quoteStr k ++ ':' :: quoteStr v ++ ',' :: encodeMembers rest

/-- `json.dumps` on a string-keyed, string-valued mapping. -/
def json_dumps (p : List (String × String)) : String :=
  ⟨'{' :: (encodeMembers p ++ ['}'])⟩

/-- Parse a JSON string body up to the closing quote, unescaping. -/
def parseStr : List Char → Option (List Char × List Char)
  | [] => none
  | c :: rest =>
    if c = '"' then some ([], rest)
    else if c = '\\' then
      match rest with
      | [] => none
      | d :: rest2 => (parseStr rest2).map (fun p => (d :: p.1, p.2))
    else (parseStr rest).map (fun p => (c :: p.1, p.2))

/-- Parse the members of a JSON object (fuel-bounded recursion); consumes the
closing brace. -/
def parseMembers : Nat → List Char → Option (List (String × String) × List Char)
  | 0, _ => none
  | _, [] => none
  | fuel + 1, c :: rest =>
    if c = '"' then
      match parseStr rest with
      | none => none
      | some (k, r1) =>
        match r1 with
        | ':' :: '"' :: r2 =>
          match parseStr r2 with
          | none => none
          | some (v, r3) =>
            match r3 with
            | ',' :: r4 =>
              match parseMembers fuel r4 with
              | none => none
              | some (ps, r5) => some ((⟨k⟩, ⟨v⟩) :: ps, r5)
            | '}' :: r4 => some ([(⟨k⟩, ⟨v⟩)], r4)
            | _ => none
        | _ => none
    else none

/-- `json.loads` on the object texts produced by `json_dumps`. -/
def json_loads (s : String) : Option (List (String × String)) :=
  match s.data with
  | '{' :: rest =>
    if rest = ['}'] then some []
    else
      match parseMembers rest.length rest with
      | some (ps, []) => some ps
      | _ => none
  | _ => none

/- ## Rule engine (`services/rules.py`) -/

/-- State threaded through one evaluation pass: the session store plus the
auto-increment counter for events a rule action may append. -/
structure EvalSt where
  store : Store
  nextEventId : Nat
deriving DecidableEq, Repr

/-- `workflow.events[i].event_type = ty` on the workflow's event collection
(the `i`-th event with the given `workflow_id`); `none` is an IndexError. -/
def setEventTypeAt : List Event → Nat → Nat → String → Option (List Event)
  | [], _, _, _ => none
  | e :: rest, wid, i, ty =>
    if e.workflow_id == wid then
      match i with
      | 0 => some ({ e with event_type := ty } :: rest)
      | i2 + 1 => (setEventTypeAt rest wid i2 ty).map (e :: ·)
    else (setEventTypeAt rest wid i ty).map (e :: ·)

/-- `exec(rule.action, {}, env)`: run an action text on the live session
state.  The result is the state after execution together with the raised
error, if any; mutations performed before a raise are NOT rolled back (they
sit on the shared ORM objects and persist at the next commit). -/
def execAction (a : ActExpr) (wid now : Nat) (st : EvalSt) : EvalSt × Option String :=
  match a with
  | .setState ws =>
    match get_workflow st.store wid with
    | some w => ({ st with store := setWorkflowRow st.store { w with state := ws } }, none)
    | none => (st, some "NameError: workflow")
  | .appendEvent ty =>
    (⟨{ st.store with
        events := st.store.events ++ [⟨st.nextEventId, wid, ty, "{}", now⟩] },
      st.nextEventId + 1⟩, none)
  | .setUpdatedAtCreatedAt =>
    match get_workflow st.store wid with
    | some w =>
      ({ st with store := setWorkflowRow st.store { w with updated_at := w.created_at } }, none)
    | none => (st, some "NameError: workflow")
  | .clearEvents =>
    ({ st with store := { st.store with
        events := st.store.events.filter (fun e => !(e.workflow_id == wid)) } }, none)
  | .setEventType i ty =>
    match setEventTypeAt st.store.events wid i ty with
    | some evs => ({ st with store := { st.store with events := evs } }, none)
    | none => (st, some "IndexError: list assignment index out of range")
  | .seq a1 a2 =>
    match execAction a1 wid now st with
    | (st1, none) => execAction a2 wid now st1
    | (st1, some e) => (st1, some e)
  | .malformed t => (st, some ("SyntaxError: " ++ t))

/-- `eval(rule.condition, {}, env)`: evaluate a condition text; the result
is the state after evaluation (an impure expression mutates it) and the
boolean outcome or the raised error. -/
def evalCond (c : CondExpr) (wid now : Nat) (st : EvalSt) : EvalSt × Except String Bool :=
  match c with
  | .stateEq s =>
    (st, match get_workflow st.store wid with
         | some w => .ok (w.state == s)
         | none => .error "NameError: workflow")
  | .effThen a k =>
    match execAction a wid now st with
    | (st1, none) => evalCond k wid now st1
    | (st1, some e) => (st1, .error e)
  | .malformed t => (st, .error ("SyntaxError: " ++ t))

/-- One iteration of the rule loop: `try: if eval(cond): exec(action)
except Exception: logger.exception(...)` — failures are swallowed, and the
state reached before a raise is kept (the except clause rolls nothing
back). -/
def ruleStep (r : Rule) (wid now : Nat) (st : EvalSt) : EvalSt :=
  match evalCond r.condition wid now st with
  | (st1, .ok true) => (execAction r.action wid now st1).1
  | (st1, .ok false) => st1
  | (st1, .error _) => st1

/-- The rule loop over a given list of rules. -/
def evalRulesList (rs : List Rule) (wid now : Nat) (st : EvalSt) : EvalSt :=
  rs.foldl (fun acc r => ruleStep r wid now acc) st

/-- `list_rules` (rules.py line 56): all rules, in table order. -/
def list_rules (s : Store) : List Rule :=
  s.rules

/-- `evaluate_rules_for_workflow` (rules.py line 61): one pass of every stored
rule against the workflow with id `wid`. -/
def evaluate_rules_for_workflow (s : Store) (nextEventId wid now : Nat) : EvalSt :=
  evalRulesList (list_rules s) wid now ⟨s, nextEventId⟩

/- ## Gateway inputs and errors -/

/-- `TaskCreate` request model. -/
structure TaskCreate where
  name : String
  assigned_to : Option String
deriving DecidableEq, Repr

/-- `WorkflowCreate` request model. -/
structure WorkflowCreate where
  name : String
  description : Option String
  initial_tasks : Option (List TaskCreate)
deriving DecidableEq, Repr

/-- `EventCreate` request model; payload is an optional key/value mapping. -/
structure EventCreate where
  event_type : String
  payload : Option (List (String × String))
deriving DecidableEq, Repr

/-- `RuleCreate` request model. -/
structure RuleCreate where
  name : String
  description : Option String
  condition : CondExpr
  action : ActExpr
deriving DecidableEq, Repr

/-- The `ValueError` raised by the gateway (mapped to 404 Not Found by the
HTTP layer in `main.py`). -/
inductive GatewayError
  | notFound (msg : String)
deriving DecidableEq, Repr

/- ## Gateway operations (`services/workflow.py`) -/

/-- Rows for the initial tasks of `create_workflow`, ids assigned in order. -/
def newTasksFor : Nat → Nat → Nat → List TaskCreate → List Task
  | _, _, _, [] => []
  | wid, tid, now, t :: rest =>
    ⟨tid, wid, t.name, t.assigned_to, .pending, now, now⟩ ::
      newTasksFor wid (tid + 1) now rest

/-- `create_workflow` lines 78-95: build the workflow row, flush to assign the
id, add the initial task rows, `update_timestamp()` — everything before the
first `db.commit()`. -/
def create_workflow_primitive (db : DB) (win : WorkflowCreate) (now : Nat) :
    DB × Workflow :=
  let w : Workflow := ⟨db.nextWorkflowId, win.name, win.description, .ordered, now, now⟩
  let tasks := newTasksFor w.id db.nextTaskId now (win.initial_tasks.getD [])
  let s : Store := { db.store with
    workflows := db.store.workflows ++ [w],
    tasks := db.store.tasks ++ tasks }
  let db1 : DB :=
    { db with
      store := s,
      nextWorkflowId := db.nextWorkflowId + 1,
      nextTaskId := db.nextTaskId + tasks.length,
      clock := now }
  (db1, w)

/-- `create_workflow` (workflow.py line 76): primitive edit, commit, rule
pass, commit, refreshed row. -/
def create_workflow (db : DB) (win : WorkflowCreate) (now : Nat) : DB × Workflow :=
  let pr := create_workflow_primitive db win now
  let db2 := commit pr.1
  let ev := evaluate_rules_for_workflow db2.store db2.nextEventId pr.2.id now
  let db3 := commit { db2 with store := ev.store, nextEventId := ev.nextEventId }
  (db3, (get_workflow db3.store pr.2.id).getD pr.2)

/-- `add_task` (workflow.py line 114). -/
def add_task (db : DB) (workflow_id : Nat) (tin : TaskCreate) (now : Nat) :
    Except GatewayError (DB × Task) :=
  match get_workflow db.store workflow_id with
  | none => .error (.notFound s!"Workflow {workflow_id} not found")
  | some w =>
    let task : Task := ⟨db.nextTaskId, workflow_id, tin.name, tin.assigned_to, .pending, now, now⟩
    let s1 := setWorkflowRow
      { db.store with tasks := db.store.tasks ++ [task] }
      { w with updated_at := now }
    let db2 := commit { db with store := s1, nextTaskId := db.nextTaskId + 1, clock := now }
    let ev := evaluate_rules_for_workflow db2.store db2.nextEventId workflow_id now
    let db3 := commit { db2 with store := ev.store, nextEventId := ev.nextEventId }
    .ok (db3, task)

/-- `add_event` (workflow.py line 136); the payload column stores
`json.dumps(event_in.payload or {})`. -/
def add_event (db : DB) (workflow_id : Nat) (ein : EventCreate) (now : Nat) :
    Except GatewayError (DB × Event) :=
  match get_workflow db.store workflow_id with
  | none => .error (.notFound s!"Workflow {workflow_id} not found")
  | some w =>
    let event : Event :=
      ⟨db.nextEventId, workflow_id, ein.event_type, json_dumps (ein.payload.getD []), now⟩
    let s1 := setWorkflowRow
      { db.store with events := db.store.events ++ [event] }
      { w with updated_at := now }
    let db2 := commit { db with store := s1, nextEventId := db.nextEventId + 1, clock := now }
    let ev := evaluate_rules_for_workflow db2.store db2.nextEventId workflow_id now
    let db3 := commit { db2 with store := ev.store, nextEventId := ev.nextEventId }
    .ok (db3, event)

/-- `update_task_state` (workflow.py line 157). -/
def update_task_state (db : DB) (workflow_id task_id : Nat) (new_state : TaskState)
    (now : Nat) : Except GatewayError (DB × Task) :=
  match db.store.tasks.find? (fun t => t.id == task_id && t.workflow_id == workflow_id) with
  | none => .error (.notFound s!"Task {task_id} not found in workflow {workflow_id}")
  | some t =>
    let t2 : Task := { t with state := new_state, updated_at := now }
    let s1 : Store := { db.store with
      tasks := db.store.tasks.map (fun t0 =>
        if t0.id = task_id ∧ t0.workflow_id = workflow_id then t2 else t0) }
    let s2 := match get_workflow s1 workflow_id with
      | some w => setWorkflowRow s1 { w with updated_at := now }
      | none => s1
    let db2 := commit { db with store := s2, clock := now }
    let ev := evaluate_rules_for_workflow db2.store db2.nextEventId workflow_id now
    let db3 := commit { db2 with store := ev.store, nextEventId := ev.nextEventId }
    .ok (db3, t2)

/-- `create_rule` (rules.py line 42): store the texts verbatim, commit. -/
def create_rule (db : DB) (rin : RuleCreate) : DB × Rule :=
  let r : Rule := ⟨db.nextRuleId, rin.name, rin.description, rin.condition, rin.action⟩
  let db1 := commit { db with
    store := { db.store with rules := db.store.rules ++ [r] },
    nextRuleId := db.nextRuleId + 1 }
  (db1, r)

/- ## Read model (`to_workflow_read`, workflow.py line 176) -/

/-- `TaskRead` response row. -/
structure TaskRead where
  id : Nat
  workflow_id : Nat
  name : String
  assigned_to : Option String
  state : TaskState
  created_at : Nat
  updated_at : Nat
deriving DecidableEq, Repr

/-- `EventRead` response row; payload is the result of `json.loads` on the
stored text (`none` models a raising load). -/
structure EventRead where
  id : Nat
  workflow_id : Nat
  event_type : String
  payload : Option (List (String × String))
  created_at : Nat
deriving DecidableEq, Repr

/-- `WorkflowRead` response row. -/
structure WorkflowRead where
  id : Nat
  name : String
  description : Option String
  state : WorkflowState
  created_at : Nat
  updated_at : Nat
  tasks : List TaskRead
  events : List EventRead
deriving DecidableEq, Repr

/-- `to_workflow_read`: tasks and events are the rows related by foreign key,
events with `json.loads(e.payload)`. -/
def to_workflow_read (s : Store) (w : Workflow) : WorkflowRead :=
  { id := w.id, name := w.name, description := w.description, state := w.state,
    created_at := w.created_at, updated_at := w.updated_at,
    tasks := (s.tasks.filter (fun t => t.workflow_id == w.id)).map
      (fun t => ⟨t.id, t.workflow_id, t.name, t.assigned_to, t.state, t.created_at, t.updated_at⟩),
    events := (s.events.filter (fun e => e.workflow_id == w.id)).map
      (fun e => ⟨e.id, e.workflow_id, e.event_type, json_loads e.payload, e.created_at⟩) }

/- ## Operation sequences -/

/-- One gateway mutation request, carrying the clock value at which it runs. -/
inductive Op
  | createWorkflow (win : WorkflowCreate) (now : Nat)
  | addTask (workflow_id : Nat) (tin : TaskCreate) (now : Nat)
  | addEvent (workflow_id : Nat) (ein : EventCreate) (now : Nat)
  | updateTaskState (workflow_id task_id : Nat) (new_state : TaskState) (now : Nat)
deriving DecidableEq, Repr

/-- The clock value an operation runs at. -/
def Op.now : Op → Nat
  | .createWorkflow _ n => n
  | .addTask _ _ n => n
  | .addEvent _ _ n => n
  | .updateTaskState _ _ _ n => n

/-- Apply one operation; a failed operation raises before mutating anything,
leaving the session unchanged. -/
def applyOp (db : DB) : Op → DB
  | .createWorkflow win now => (create_workflow db win now).1
  | .addTask wid tin now =>
    match add_task db wid tin now with
    | .ok p => p.1
    | .error _ => db
  | .addEvent wid ein now =>
    match add_event db wid ein now with
    | .ok p => p.1
    | .error _ => db
  | .updateTaskState wid tid st now =>
    match update_task_state db wid tid st now with
    | .ok p => p.1
    | .error _ => db

/-- Run a sequence of operations. -/
def runOps (db : DB) : List Op → DB
  | [] => db
  | o :: rest => runOps (applyOp db o) rest

/-- Per-workflow view of the event log. -/
def eventsFor (s : Store) (wid : Nat) : List Event :=
  s.events.filter (fun e => e.workflow_id == wid)

/-- `updated_at` of the workflow with the given id (0 when absent). -/
def updatedAtOf (s : Store) (i : Nat) : Nat :=
  match get_workflow s i with
  | some w => w.updated_at
  | none => 0

/-- Session invariant: every workflow timestamp is at most the clock. -/
def TimesOk (db : DB) : Prop :=
  ∀ w ∈ db.store.workflows, w.updated_at ≤ db.clock

/-- The clock values carried by a list of operations never run backwards. -/
def NowsMono : Nat → List Op → Prop
  | _, [] => True
  | c, o :: rest => c ≤ o.now ∧ NowsMono o.now rest

/-- Rule-table invariant: ids strictly ascending, all below the counter. -/
def RulesSorted (db : DB) : Prop :=
  db.store.rules.Pairwise (fun a b => a.id < b.id) ∧
    ∀ r ∈ db.store.rules, r.id < db.nextRuleId

/-- Id-freshness invariant of the auto-increment counters. -/
def FreshIds (db : DB) : Prop :=
  (∀ w ∈ db.store.workflows, w.id < db.nextWorkflowId) ∧
    ∀ t ∈ db.store.tasks, t.workflow_id < db.nextWorkflowId

/-- An action drawn from the closed effect set the spec documents for the
action language (§4.2): set a workflow field, append an event, raise —
excluding timestamp writes and event deletion or edits, which `exec`
admits but the documented language does not. -/
def actTame : ActExpr → Bool
  | .setState _ => true
  | .appendEvent _ => true
  | .seq a b => actTame a && actTame b
  | .malformed _ => true
  | _ => false

/-- A condition whose evaluation performs at most documented effects:
comparisons, parse failures, and embedded effects that are themselves
tame (no timestamp writes, no event deletion or edits). -/
def condTame : CondExpr → Bool
  | .stateEq _ => true
  | .effThen a k => actTame a && condTame k
  | .malformed _ => true

/-- A rule whose condition and action stay within the documented language. -/
def ruleTame (r : Rule) : Bool :=
  condTame r.condition && actTame r.action

/-- Every stored rule stays within the documented expression language. -/
def RulesTame (s : Store) : Prop :=
  ∀ r ∈ s.rules, ruleTame r = true

/- ## Concrete fixtures -/

/-- An empty database (fresh SQLite file). -/
def storeEmpty : Store := ⟨[], [], [], []⟩

/-- Session opened over the empty database. -/
def dbEmpty : DB := ⟨storeEmpty, [storeEmpty], 1, 1, 1, 1, 0⟩

/-- One workflow in ORDERED plus one advance rule. -/
def storeAdv : Store :=
  ⟨[⟨1, "wf", none, .ordered, 0, 0⟩], [], [],
   [⟨1, "advance", none, .stateEq .ordered, .setState .pending_access⟩]⟩

/-- Session over `storeAdv`, with `storeAdv` as the committed snapshot. -/
def dbAdv : DB := ⟨storeAdv, [storeAdv], 2, 1, 1, 2, 0⟩

/-- The (intermediate) snapshot `add_task dbAdv` commits first: task added,
timestamp advanced, workflow still ORDERED. -/
def storeAdvMid : Store :=
  ⟨[⟨1, "wf", none, .ordered, 0, 1⟩], [⟨1, 1, "x", none, .pending, 1, 1⟩], [],
   [⟨1, "advance", none, .stateEq .ordered, .setState .pending_access⟩]⟩

/-- The final snapshot: the advance rule has fired. -/
def storeAdvPost : Store :=
  ⟨[⟨1, "wf", none, .pending_access, 0, 1⟩], [⟨1, 1, "x", none, .pending, 1, 1⟩], [],
   [⟨1, "advance", none, .stateEq .ordered, .setState .pending_access⟩]⟩

/-- One workflow in ORDERED plus the chained rules R1 and R2 of §8. -/
def storeChain : Store :=
  ⟨[⟨1, "wf", none, .ordered, 0, 0⟩], [], [],
   [⟨1, "R1", none, .stateEq .ordered, .setState .pending_access⟩,
    ⟨2, "R2", none, .stateEq .pending_access, .appendEvent "auto_advanced"⟩]⟩

/-- Session over `storeChain`. -/
def dbChain : DB := ⟨storeChain, [storeChain], 2, 1, 1, 3, 0⟩

/-- One workflow in ORDERED plus a rule whose action appends an event. -/
def storeAuto : Store :=
  ⟨[⟨1, "wf", none, .ordered, 0, 0⟩], [], [],
   [⟨1, "auto", none, .stateEq .ordered, .appendEvent "auto"⟩]⟩

/-- Session over `storeAuto`. -/
def dbAuto : DB := ⟨storeAuto, [storeAuto], 2, 1, 1, 2, 0⟩

/-- One workflow, one existing task, one advance rule. -/
def storeFull : Store :=
  ⟨[⟨1, "wf", none, .ordered, 0, 0⟩], [⟨7, 1, "t", none, .pending, 0, 0⟩], [],
   [⟨1, "advance", none, .stateEq .ordered, .setState .pending_access⟩]⟩

/-- Session over `storeFull`. -/
def dbFull : DB := ⟨storeFull, [storeFull], 2, 8, 1, 2, 0⟩

/-- A workflow whose `updated_at` (5) is ahead of `created_at` (0), plus a
storable rule whose action is `workflow.updated_at = workflow.created_at`. -/
def storeBack : Store :=
  ⟨[⟨1, "wf", none, .ordered, 0, 5⟩], [], [],
   [⟨1, "backdate", none, .stateEq .ordered, .setUpdatedAtCreatedAt⟩]⟩

/-- Session over `storeBack`. -/
def dbBack : DB := ⟨storeBack, [storeBack], 2, 1, 1, 2, 5⟩

/-- A workflow with one logged event, plus a storable rule whose action is
`workflow.events.clear()`. -/
def storeClear : Store :=
  ⟨[⟨1, "wf", none, .ordered, 0, 0⟩], [], [⟨1, 1, "seed", "{}", 0⟩],
   [⟨1, "purge", none, .stateEq .ordered, .clearEvents⟩]⟩

/-- Session over `storeClear`. -/
def dbClear : DB := ⟨storeClear, [storeClear], 2, 1, 2, 2, 0⟩

/-- A workflow with one logged event and no rules, for exercising a single
rule step directly. -/
def storeSeeded : Store :=
  ⟨[⟨1, "wf", none, .ordered, 0, 0⟩], [], [⟨1, 1, "seed", "{}", 0⟩], []⟩

/- ## JSON round-trip lemmas -/

lemma string_eta (s : String) : String.mk s.data = s := rfl

lemma parseStr_escape (s : List Char) (rest : List Char) :
    parseStr (escape s ++ '"' :: rest) = some (s, rest) := by
  induction s generalizing rest with
  | nil => simp [escape, parseStr.eq_def]
  | cons c s ih =>
    by_cases hc : c = '\\' ∨ c = '"'
    · have h1 : ¬ ('\\' : Char) = '"' := by decide
      simp only [escape, escChar, if_pos hc, List.cons_append, List.append_assoc]
      rw [parseStr.eq_def]
      simp [h1, ih]
    · push_neg at hc
      simp only [escape, escChar, if_neg (not_or.mpr ⟨hc.1, hc.2⟩), List.cons_append,
        List.append_assoc]
      rw [parseStr.eq_def]
      simp [hc.1, hc.2, ih]

lemma parseMembers_encode (p : List (String × String)) :
    ∀ (fuel : Nat) (rest : List Char), p.length ≤ fuel → p ≠ [] →
      parseMembers fuel (encodeMembers p ++ '}' :: rest) = some (p, rest) := by
  induction p with
  | nil => intro fuel rest _ hne; exact absurd rfl hne
  | cons kv p ih =>
    intro fuel rest hlen _
    obtain ⟨k, v⟩ := kv
    cases fuel with
    | zero =>
      simp only [List.length_cons] at hlen
      omega
    | succ fuel =>
      cases p with
      | nil =>
        simp only [encodeMembers, quoteStr, List.cons_append, List.append_assoc,
          List.nil_append, parseMembers, if_pos rfl, parseStr_escape]
        simp [parseStr_escape, string_eta]
      | cons kv2 p2 =>
        have hlen2 : (kv2 :: p2).length ≤ fuel := by
          simp only [List.length_cons] at hlen ⊢
          omega
        simp only [encodeMembers, quoteStr, List.cons_append, List.append_assoc,
          List.nil_append, parseMembers, if_pos rfl, parseStr_escape]
        simp [parseStr_escape, string_eta, ih fuel rest hlen2 (by simp)]

lemma encodeMembers_length (p : List (String × String)) :
    p.length ≤ (encodeMembers p).length := by
  induction p with
  | nil => simp [encodeMembers]
  | cons kv p ih =>
    obtain ⟨k, v⟩ := kv
    cases p with
    | nil => simp [encodeMembers, quoteStr]
    | cons kv2 p2 =>
      simp only [encodeMembers, quoteStr, List.cons_append, List.append_assoc,
        List.length_append, List.length_cons, List.length_nil] at ih ⊢
      omega

lemma encodeMembers_ne_nil (k v : String) (p : List (String × String)) :
    encodeMembers ((k, v) :: p) ≠ [] := by
  cases p <;> simp [encodeMembers, quoteStr]

/-- `json.loads` inverts `json.dumps` on every key/value mapping. -/
lemma json_roundtrip (p : List (String × String)) :
    json_loads (json_dumps p) = some p := by
  cases p with
  | nil => rfl
  | cons kv p =>
    obtain ⟨k, v⟩ := kv
    have hne : encodeMembers ((k, v) :: p) ++ ['}'] ≠ ['}'] := by
      intro h
      apply encodeMembers_ne_nil k v p
      cases h0 : encodeMembers ((k, v) :: p) with
      | nil => rfl
      | cons a l =>
        rw [h0] at h
        have := congrArg List.length h
        simp at this
    have hfuel : ((k, v) :: p).length ≤ (encodeMembers ((k, v) :: p) ++ ['}']).length := by
      have h1 := encodeMembers_length ((k, v) :: p)
      simp only [List.length_cons] at h1 ⊢
      simp only [List.length_append, List.length_cons, List.length_nil]
      omega
    have hmem := parseMembers_encode ((k, v) :: p)
      (encodeMembers ((k, v) :: p) ++ ['}']).length [] hfuel (by simp)
    have harg : encodeMembers ((k, v) :: p) ++ '}' :: [] =
        encodeMembers ((k, v) :: p) ++ ['}'] := rfl
    rw [harg] at hmem
    simp only [json_dumps, json_loads, if_neg hne, hmem]

/- ## Store access lemmas -/

lemma get_workflow_id {s : Store} {i : Nat} {w : Workflow}
    (h : get_workflow s i = some w) : w.id = i := by
  have := List.find?_some h
  simpa using this

lemma get_workflow_mem {s : Store} {i : Nat} {w : Workflow}
    (h : get_workflow s i = some w) : w ∈ s.workflows :=
  List.mem_of_find?_eq_some h

lemma get_workflow_setWorkflowRow (s : Store) (w2 : Workflow) (i : Nat) :
    get_workflow (setWorkflowRow s w2) i =
      (get_workflow s i).map (fun w0 => if w0.id = w2.id then w2 else w0) := by
  unfold get_workflow setWorkflowRow
  simp only [List.find?_map]
  have hp : ((fun w => w.id == i) ∘ fun w0 => if w0.id = w2.id then w2 else w0) =
      (fun w0 : Workflow => w0.id == i) := by
    funext w0
    by_cases h : w0.id = w2.id <;> simp [Function.comp, h]
  rw [hp]

lemma updatedAtOf_workflows_eq {s s2 : Store} (h : s2.workflows = s.workflows) (i : Nat) :
    updatedAtOf s2 i = updatedAtOf s i := by
  simp [updatedAtOf, get_workflow, h]

lemma updatedAtOf_setWorkflowRow_same {s : Store} {w w2 : Workflow}
    (h : get_workflow s w2.id = some w) (hu : w2.updated_at = w.updated_at) (i : Nat) :
    updatedAtOf (setWorkflowRow s w2) i = updatedAtOf s i := by
  simp only [updatedAtOf, get_workflow_setWorkflowRow]
  cases hg : get_workflow s i with
  | none => simp
  | some w0 =>
    simp only [Option.map_some']
    by_cases hid : w0.id = w2.id
    · have hiw : i = w2.id := by rw [← get_workflow_id hg, hid]
      rw [hiw] at hg
      rw [hg] at h
      have hww : w0 = w := by injection h
      have hid2 : w.id = w2.id := hww ▸ hid
      simp [hww, if_pos hid2, hu]
    · simp [if_neg hid]

lemma isSome_get_setWorkflowRow {s : Store} (w2 : Workflow) (i : Nat)
    (h : (get_workflow s i).isSome) : (get_workflow (setWorkflowRow s w2) i).isSome := by
  rw [get_workflow_setWorkflowRow]
  cases hg : get_workflow s i with
  | none => rw [hg] at h; simp at h
  | some w0 => simp

/- ## Rule engine lemmas -/

lemma evalRulesList_append (rs1 rs2 : List Rule) (wid now : Nat) (st : EvalSt) :
    evalRulesList (rs1 ++ rs2) wid now st =
      evalRulesList rs2 wid now (evalRulesList rs1 wid now st) := by
  simp [evalRulesList, List.foldl_append]

lemma evalRulesList_cons (r : Rule) (rs : List Rule) (wid now : Nat) (st : EvalSt) :
    evalRulesList (r :: rs) wid now st =
      evalRulesList rs wid now (ruleStep r wid now st) := rfl

lemma ruleStep_of_cond_error (r : Rule) (wid now : Nat) (st : EvalSt) (e : String)
    (h : evalCond r.condition wid now st = (st, .error e)) : ruleStep r wid now st = st := by
  simp [ruleStep, h]

lemma ruleStep_of_action_error (r : Rule) (wid now : Nat) (st st1 st2 : EvalSt) (e : String)
    (h1 : evalCond r.condition wid now st = (st1, .ok true))
    (h2 : execAction r.action wid now st1 = (st2, some e)) :
    ruleStep r wid now st = st2 := by
  simp [ruleStep, h1, h2]

/-- What every action execution preserves, tame or not: the rule and task
tables, and the existence of each workflow row. -/
lemma execAction_shape (a : ActExpr) (wid now : Nat) (st : EvalSt) :
    (execAction a wid now st).1.store.rules = st.store.rules ∧
    (execAction a wid now st).1.store.tasks = st.store.tasks ∧
    (∀ i, (get_workflow st.store i).isSome →
      (get_workflow (execAction a wid now st).1.store i).isSome) := by
  induction a generalizing st with
  | setState ws =>
    simp only [execAction]
    cases hg : get_workflow st.store wid with
    | none => exact ⟨rfl, rfl, fun i hi => hi⟩
    | some w => exact ⟨rfl, rfl, fun i hi => isSome_get_setWorkflowRow _ i hi⟩
  | appendEvent ty => exact ⟨rfl, rfl, fun i hi => hi⟩
  | setUpdatedAtCreatedAt =>
    simp only [execAction]
    cases hg : get_workflow st.store wid with
    | none => exact ⟨rfl, rfl, fun i hi => hi⟩
    | some w => exact ⟨rfl, rfl, fun i hi => isSome_get_setWorkflowRow _ i hi⟩
  | clearEvents => exact ⟨rfl, rfl, fun i hi => hi⟩
  | setEventType i2 ty =>
    simp only [execAction]
    cases hg : setEventTypeAt st.store.events wid i2 ty with
    | none => exact ⟨rfl, rfl, fun i hi => hi⟩
    | some evs => exact ⟨rfl, rfl, fun i hi => hi⟩
  | seq a1 a2 iha ihb =>
    simp only [execAction]
    cases hg : execAction a1 wid now st with
    | mk st1 err =>
      obtain ⟨hr1, ht1, hs1⟩ := iha st
      rw [hg] at hr1 ht1 hs1
      cases err with
      | none =>
        obtain ⟨hr2, ht2, hs2⟩ := ihb st1
        exact ⟨hr2.trans hr1, ht2.trans ht1, fun i hi => hs2 i (hs1 i hi)⟩
      | some e => exact ⟨hr1, ht1, hs1⟩
  | malformed t => exact ⟨rfl, rfl, fun i hi => hi⟩

/-- What a tame action execution additionally preserves, even when it
raises after partial effects: events are only appended, no workflow's
`updated_at` changes, and each workflow row keeps an old row's id and
`updated_at`. -/
lemma execAction_tame {a : ActExpr} (ht : actTame a = true) (wid now : Nat) (st : EvalSt) :
    (∃ tail, (execAction a wid now st).1.store.events = st.store.events ++ tail) ∧
    (∀ i, updatedAtOf (execAction a wid now st).1.store i = updatedAtOf st.store i) ∧
    (∀ w2 ∈ (execAction a wid now st).1.store.workflows,
      ∃ w ∈ st.store.workflows, w2.updated_at = w.updated_at) := by
  induction a generalizing st with
  | setState ws =>
    simp only [execAction]
    cases hg : get_workflow st.store wid with
    | none => exact ⟨⟨[], (List.append_nil _).symm⟩, fun i => rfl, fun w2 h => ⟨w2, h, rfl⟩⟩
    | some w =>
      have hid : ({ w with state := ws } : Workflow).id = w.id := rfl
      have hg2 : get_workflow st.store ({ w with state := ws } : Workflow).id = some w := by
        rw [hid, get_workflow_id hg]
        exact hg
      refine ⟨⟨[], by simp [setWorkflowRow]⟩, ?_, ?_⟩
      · intro i
        exact updatedAtOf_setWorkflowRow_same hg2 rfl i
      · intro w2 hw2
        simp only [setWorkflowRow, List.mem_map] at hw2
        obtain ⟨w0, hw0, hrepl⟩ := hw2
        by_cases hcase : w0.id = ({ w with state := ws } : Workflow).id
        · rw [if_pos hcase] at hrepl
          exact ⟨w, get_workflow_mem hg, by rw [← hrepl]⟩
        · rw [if_neg hcase] at hrepl
          exact ⟨w0, hw0, by rw [← hrepl]⟩
  | appendEvent ty =>
    exact ⟨⟨_, rfl⟩, fun i => updatedAtOf_workflows_eq rfl i, fun w2 h => ⟨w2, h, rfl⟩⟩
  | setUpdatedAtCreatedAt => simp [actTame] at ht
  | clearEvents => simp [actTame] at ht
  | setEventType i2 ty => simp [actTame] at ht
  | seq a1 a2 iha ihb =>
    simp only [actTame, Bool.and_eq_true] at ht
    simp only [execAction]
    cases hg : execAction a1 wid now st with
    | mk st1 err =>
      obtain ⟨⟨tl1, he1⟩, hu1, hm1⟩ := iha ht.1 st
      rw [hg] at he1 hu1 hm1
      cases err with
      | none =>
        obtain ⟨⟨tl2, he2⟩, hu2, hm2⟩ := ihb ht.2 st1
        refine ⟨⟨tl1 ++ tl2, by rw [he2, he1, List.append_assoc]⟩, ?_, ?_⟩
        · intro i
          rw [hu2 i, hu1 i]
        · intro w2 hw2
          obtain ⟨w1, hw1, hq⟩ := hm2 w2 hw2
          obtain ⟨w0, hw0, hq0⟩ := hm1 w1 hw1
          exact ⟨w0, hw0, hq.trans hq0⟩
      | some e => exact ⟨⟨tl1, he1⟩, hu1, hm1⟩
  | malformed t =>
    exact ⟨⟨[], (List.append_nil _).symm⟩, fun i => rfl, fun w2 h => ⟨w2, h, rfl⟩⟩

/-- What condition evaluation preserves, tame or not. -/
lemma evalCond_shape (c : CondExpr) (wid now : Nat) (st : EvalSt) :
    (evalCond c wid now st).1.store.rules = st.store.rules ∧
    (evalCond c wid now st).1.store.tasks = st.store.tasks ∧
    (∀ i, (get_workflow st.store i).isSome →
      (get_workflow (evalCond c wid now st).1.store i).isSome) := by
  induction c generalizing st with
  | stateEq s => exact ⟨rfl, rfl, fun i hi => hi⟩
  | effThen a k ihk =>
    simp only [evalCond]
    cases hg : execAction a wid now st with
    | mk st1 err =>
      obtain ⟨hr1, ht1, hs1⟩ := execAction_shape a wid now st
      rw [hg] at hr1 ht1 hs1
      cases err with
      | none =>
        obtain ⟨hr2, ht2, hs2⟩ := ihk st1
        exact ⟨hr2.trans hr1, ht2.trans ht1, fun i hi => hs2 i (hs1 i hi)⟩
      | some e => exact ⟨hr1, ht1, hs1⟩
  | malformed t => exact ⟨rfl, rfl, fun i hi => hi⟩

/-- What a tame condition evaluation additionally preserves. -/
lemma evalCond_tame {c : CondExpr} (ht : condTame c = true) (wid now : Nat) (st : EvalSt) :
    (∃ tail, (evalCond c wid now st).1.store.events = st.store.events ++ tail) ∧
    (∀ i, updatedAtOf (evalCond c wid now st).1.store i = updatedAtOf st.store i) ∧
    (∀ w2 ∈ (evalCond c wid now st).1.store.workflows,
      ∃ w ∈ st.store.workflows, w2.updated_at = w.updated_at) := by
  induction c generalizing st with
  | stateEq s =>
    exact ⟨⟨[], (List.append_nil _).symm⟩, fun i => rfl, fun w2 h => ⟨w2, h, rfl⟩⟩
  | effThen a k ihk =>
    simp only [condTame, Bool.and_eq_true] at ht
    simp only [evalCond]
    cases hg : execAction a wid now st with
    | mk st1 err =>
      obtain ⟨⟨tl1, he1⟩, hu1, hm1⟩ := execAction_tame ht.1 wid now st
      rw [hg] at he1 hu1 hm1
      cases err with
      | none =>
        obtain ⟨⟨tl2, he2⟩, hu2, hm2⟩ := ihk ht.2 st1
        refine ⟨⟨tl1 ++ tl2, by rw [he2, he1, List.append_assoc]⟩, ?_, ?_⟩
        · intro i
          rw [hu2 i, hu1 i]
        · intro w2 hw2
          obtain ⟨w1, hw1, hq⟩ := hm2 w2 hw2
          obtain ⟨w0, hw0, hq0⟩ := hm1 w1 hw1
          exact ⟨w0, hw0, hq.trans hq0⟩
      | some e => exact ⟨⟨tl1, he1⟩, hu1, hm1⟩
  | malformed t =>
    exact ⟨⟨[], (List.append_nil _).symm⟩, fun i => rfl, fun w2 h => ⟨w2, h, rfl⟩⟩

/-- What one rule step preserves, tame or not. -/
lemma ruleStep_shape (r : Rule) (wid now : Nat) (st : EvalSt) :
    (ruleStep r wid now st).store.rules = st.store.rules ∧
    (ruleStep r wid now st).store.tasks = st.store.tasks ∧
    (∀ i, (get_workflow st.store i).isSome →
      (get_workflow (ruleStep r wid now st).store i).isSome) := by
  unfold ruleStep
  cases hc : evalCond r.condition wid now st with
  | mk st1 res =>
    obtain ⟨hr1, ht1, hs1⟩ := evalCond_shape r.condition wid now st
    rw [hc] at hr1 ht1 hs1
    cases res with
    | error e => exact ⟨hr1, ht1, hs1⟩
    | ok b =>
      cases b with
      | false => exact ⟨hr1, ht1, hs1⟩
      | true =>
        obtain ⟨hr2, ht2, hs2⟩ := execAction_shape r.action wid now st1
        exact ⟨hr2.trans hr1, ht2.trans ht1, fun i hi => hs2 i (hs1 i hi)⟩

/-- What one tame rule step additionally preserves. -/
lemma ruleStep_props (r : Rule) (wid now : Nat) (st : EvalSt) (hta : ruleTame r = true) :
    (∃ tail, (ruleStep r wid now st).store.events = st.store.events ++ tail) ∧
    (∀ i, updatedAtOf (ruleStep r wid now st).store i = updatedAtOf st.store i) ∧
    (∀ w2 ∈ (ruleStep r wid now st).store.workflows,
      ∃ w ∈ st.store.workflows, w2.updated_at = w.updated_at) := by
  simp only [ruleTame, Bool.and_eq_true] at hta
  unfold ruleStep
  cases hc : evalCond r.condition wid now st with
  | mk st1 res =>
    obtain ⟨⟨tl1, he1⟩, hu1, hm1⟩ := evalCond_tame hta.1 wid now st
    rw [hc] at he1 hu1 hm1
    cases res with
    | error e => exact ⟨⟨tl1, he1⟩, hu1, hm1⟩
    | ok b =>
      cases b with
      | false => exact ⟨⟨tl1, he1⟩, hu1, hm1⟩
      | true =>
        obtain ⟨⟨tl2, he2⟩, hu2, hm2⟩ := execAction_tame hta.2 wid now st1
        refine ⟨⟨tl1 ++ tl2, by rw [he2, he1, List.append_assoc]⟩, ?_, ?_⟩
        · intro i
          rw [hu2 i, hu1 i]
        · intro w2 hw2
          obtain ⟨w1, hw1, hq⟩ := hm2 w2 hw2
          obtain ⟨w0, hw0, hq0⟩ := hm1 w1 hw1
          exact ⟨w0, hw0, hq.trans hq0⟩

/-- What a full pass preserves, tame or not. -/
lemma evalRulesList_shape (rs : List Rule) (wid now : Nat) (st : EvalSt) :
    (evalRulesList rs wid now st).store.rules = st.store.rules ∧
    (evalRulesList rs wid now st).store.tasks = st.store.tasks ∧
    (∀ i, (get_workflow st.store i).isSome →
      (get_workflow (evalRulesList rs wid now st).store i).isSome) := by
  induction rs generalizing st with
  | nil => exact ⟨rfl, rfl, fun i hi => hi⟩
  | cons r rs ih =>
    rw [evalRulesList_cons]
    obtain ⟨hr1, ht1, hs1⟩ := ruleStep_shape r wid now st
    obtain ⟨hr2, ht2, hs2⟩ := ih (ruleStep r wid now st)
    exact ⟨hr2.trans hr1, ht2.trans ht1, fun i hi => hs2 i (hs1 i hi)⟩

/-- What a pass over tame rules additionally preserves. -/
lemma evalRulesList_props (rs : List Rule) (wid now : Nat) (st : EvalSt)
    (hta : ∀ r ∈ rs, ruleTame r = true) :
    (∃ tail, (evalRulesList rs wid now st).store.events = st.store.events ++ tail) ∧
    (∀ i, updatedAtOf (evalRulesList rs wid now st).store i = updatedAtOf st.store i) ∧
    (∀ w2 ∈ (evalRulesList rs wid now st).store.workflows,
      ∃ w ∈ st.store.workflows, w2.updated_at = w.updated_at) := by
  induction rs generalizing st with
  | nil =>
    exact ⟨⟨[], by simp [evalRulesList]⟩, fun i => rfl, fun w2 h => ⟨w2, h, rfl⟩⟩
  | cons r rs ih =>
    rw [evalRulesList_cons]
    obtain ⟨⟨tl1, he1⟩, hu1, hm1⟩ := ruleStep_props r wid now st (hta r (by simp))
    obtain ⟨⟨tl2, he2⟩, hu2, hm2⟩ :=
      ih (ruleStep r wid now st) (fun r2 hr2 => hta r2 (List.mem_cons_of_mem _ hr2))
    refine ⟨⟨tl1 ++ tl2, by rw [he2, he1, List.append_assoc]⟩, ?_, ?_⟩
    · intro i
      rw [hu2 i, hu1 i]
    · intro w2 hw2
      obtain ⟨w1, hw1, hq⟩ := hm2 w2 hw2
      obtain ⟨w0, hw0, hq0⟩ := hm1 w1 hw1
      exact ⟨w0, hw0, hq.trans hq0⟩

lemma evaluate_rules_eq (s : Store) (nei wid now : Nat) :
    evaluate_rules_for_workflow s nei wid now = evalRulesList s.rules wid now ⟨s, nei⟩ := rfl

/- ## Per-operation lemmas -/

lemma updatedAtOf_touch {db : DB} (h : TimesOk db) {now : Nat} (hc : db.clock ≤ now)
    {s : Store} (hsw : s.workflows = db.store.workflows) (w2 : Workflow)
    (hw2 : w2.updated_at = now) (i : Nat) :
    updatedAtOf db.store i ≤ updatedAtOf (setWorkflowRow s w2) i := by
  have hget : get_workflow s i = get_workflow db.store i := by
    simp [get_workflow, hsw]
  simp only [updatedAtOf, get_workflow_setWorkflowRow, hget]
  cases hg : get_workflow db.store i with
  | none => exact Nat.le_refl 0
  | some w0 =>
    simp only [Option.map_some']
    by_cases hid : w0.id = w2.id
    · rw [if_pos hid, hw2]
      exact Nat.le_trans (h w0 (get_workflow_mem hg)) hc
    · rw [if_neg hid]

lemma timesOk_touch {db : DB} (h : TimesOk db) {now : Nat} (hc : db.clock ≤ now)
    {s : Store} (hsw : s.workflows = db.store.workflows) (w2 : Workflow)
    (hw2 : w2.updated_at = now) :
    ∀ wx ∈ (setWorkflowRow s w2).workflows, wx.updated_at ≤ now := by
  intro wx hwx
  simp only [setWorkflowRow, List.mem_map, hsw] at hwx
  obtain ⟨w0, hw0, hrepl⟩ := hwx
  by_cases hid : w0.id = w2.id
  · rw [if_pos hid] at hrepl
    rw [← hrepl, hw2]
  · rw [if_neg hid] at hrepl
    rw [← hrepl]
    exact Nat.le_trans (h w0 hw0) hc

lemma timesOk_after_eval {rs : List Rule} {st : EvalSt} {wid now : Nat}
    (hta : ∀ r ∈ rs, ruleTame r = true)
    (hbase : ∀ wx ∈ st.store.workflows, wx.updated_at ≤ now) :
    ∀ w2 ∈ (evalRulesList rs wid now st).store.workflows, w2.updated_at ≤ now := by
  intro w2 hw2
  obtain ⟨-, -, hmem⟩ := evalRulesList_props rs wid now st hta
  obtain ⟨w1, hw1, he⟩ := hmem w2 hw2
  exact he ▸ hbase w1 hw1

lemma updatedAtOf_after_eval (rs : List Rule) (st : EvalSt) (wid now i : Nat)
    (hta : ∀ r ∈ rs, ruleTame r = true) :
    updatedAtOf (evalRulesList rs wid now st).store i = updatedAtOf st.store i := by
  obtain ⟨-, hupd, -⟩ := evalRulesList_props rs wid now st hta
  exact hupd i

lemma events_after_eval (rs : List Rule) (st : EvalSt) (wid now : Nat)
    (hta : ∀ r ∈ rs, ruleTame r = true) :
    ∃ tail, (evalRulesList rs wid now st).store.events = st.store.events ++ tail := by
  obtain ⟨hev, -, -⟩ := evalRulesList_props rs wid now st hta
  exact hev

lemma rules_after_eval (rs : List Rule) (st : EvalSt) (wid now : Nat) :
    (evalRulesList rs wid now st).store.rules = st.store.rules :=
  (evalRulesList_shape rs wid now st).1

lemma updatedAtOf_append_le {s s2 : Store} {ws : List Workflow}
    (hws : s2.workflows = s.workflows ++ ws) (i : Nat) :
    updatedAtOf s i ≤ updatedAtOf s2 i := by
  simp only [updatedAtOf, get_workflow, hws, List.find?_append]
  cases hg : List.find? (fun w => w.id == i) s.workflows with
  | none => simp only [Option.none_or]; exact Nat.zero_le _
  | some w0 => exact Nat.le_refl _

/-- All single-operation facts needed for the monotonicity invariant, for a
session whose stored rules stay within the documented expression language:
operations preserve `TimesOk`, leave the clock at most the operation's
`now`, and never decrease any workflow's `updated_at`. -/
lemma applyOp_props (db : DB) (o : Op) (h : TimesOk db) (hc : db.clock ≤ o.now)
    (hta : RulesTame db.store) :
    TimesOk (applyOp db o) ∧ (applyOp db o).clock ≤ o.now ∧
      ∀ i, updatedAtOf db.store i ≤ updatedAtOf (applyOp db o).store i := by
  cases o with
  | createWorkflow win now =>
    unfold applyOp create_workflow create_workflow_primitive
    simp only [evaluate_rules_eq, commit]
    refine ⟨?_, Nat.le_refl now, ?_⟩
    · intro w2 hw2
      refine timesOk_after_eval ?_ ?_ w2 hw2
      · exact fun r hr => hta r hr
      · intro wx hwx
        simp only [List.mem_append, List.mem_singleton] at hwx
        cases hwx with
        | inl hmem => exact Nat.le_trans (h wx hmem) hc
        | inr hnew =>
          rw [hnew]
    · intro i
      refine Nat.le_trans ?_ (Nat.le_of_eq (updatedAtOf_after_eval _ _ _ _ i ?_).symm)
      · exact updatedAtOf_append_le rfl i
      · exact fun r hr => hta r hr
  | addTask wid tin now =>
    unfold applyOp
    cases hg : get_workflow db.store wid with
    | none =>
      unfold add_task
      simp only [hg]
      exact ⟨h, hc, fun i => Nat.le_refl _⟩
    | some w =>
      unfold add_task
      simp only [hg, evaluate_rules_eq, commit]
      refine ⟨?_, Nat.le_refl now, ?_⟩
      · intro w2 hw2
        refine timesOk_after_eval ?_ ?_ w2 hw2
        · exact fun r hr => hta r hr
        · exact timesOk_touch h hc rfl _ rfl
      · intro i
        refine Nat.le_trans ?_ (Nat.le_of_eq (updatedAtOf_after_eval _ _ _ _ i ?_).symm)
        · exact updatedAtOf_touch h hc rfl _ rfl i
        · exact fun r hr => hta r hr
  | addEvent wid ein now =>
    unfold applyOp
    cases hg : get_workflow db.store wid with
    | none =>
      unfold add_event
      simp only [hg]
      exact ⟨h, hc, fun i => Nat.le_refl _⟩
    | some w =>
      unfold add_event
      simp only [hg, evaluate_rules_eq, commit]
      refine ⟨?_, Nat.le_refl now, ?_⟩
      · intro w2 hw2
        refine timesOk_after_eval ?_ ?_ w2 hw2
        · exact fun r hr => hta r hr
        · exact timesOk_touch h hc rfl _ rfl
      · intro i
        refine Nat.le_trans ?_ (Nat.le_of_eq (updatedAtOf_after_eval _ _ _ _ i ?_).symm)
        · exact updatedAtOf_touch h hc rfl _ rfl i
        · exact fun r hr => hta r hr
  | updateTaskState wid tid ts now =>
    unfold applyOp
    cases hg : db.store.tasks.find? (fun t => t.id == tid && t.workflow_id == wid) with
    | none =>
      unfold update_task_state
      simp only [hg]
      exact ⟨h, hc, fun i => Nat.le_refl _⟩
    | some t =>
      unfold update_task_state
      simp only [hg, evaluate_rules_eq, commit]
      cases hg2 : get_workflow
          { db.store with tasks := db.store.tasks.map (fun t0 =>
              if t0.id = tid ∧ t0.workflow_id = wid
              then { t with state := ts, updated_at := now } else t0) } wid with
      | none =>
        simp only [hg2]
        refine ⟨?_, Nat.le_refl now, ?_⟩
        · intro w2 hw2
          refine timesOk_after_eval ?_ ?_ w2 hw2
          · exact fun r hr => hta r hr
          · intro wx hwx
            exact Nat.le_trans (h wx hwx) hc
        · intro i
          refine Nat.le_trans ?_ (Nat.le_of_eq (updatedAtOf_after_eval _ _ _ _ i ?_).symm)
          · exact Nat.le_of_eq (updatedAtOf_workflows_eq rfl i).symm
          · exact fun r hr => hta r hr
      | some w2 =>
        simp only [hg2]
        refine ⟨?_, Nat.le_refl now, ?_⟩
        · intro wx hwx
          refine timesOk_after_eval ?_ ?_ wx hwx
          · exact fun r hr => hta r hr
          · exact timesOk_touch h hc rfl _ rfl
        · intro i
          refine Nat.le_trans ?_ (Nat.le_of_eq (updatedAtOf_after_eval _ _ _ _ i ?_).symm)
          · exact updatedAtOf_touch h hc rfl _ rfl i
          · exact fun r hr => hta r hr

lemma NowsMono_weaken {c c2 : Nat} {ops : List Op} (hle : c2 ≤ c)
    (h : NowsMono c ops) : NowsMono c2 ops := by
  cases ops with
  | nil => trivial
  | cons o rest => exact ⟨Nat.le_trans hle h.1, h.2⟩

/-- Operations never change the rule table, whatever the stored rules are. -/
lemma applyOp_rules (db : DB) (o : Op) :
    (applyOp db o).store.rules = db.store.rules := by
  cases o with
  | createWorkflow win now =>
    unfold applyOp create_workflow create_workflow_primitive
    simp only [evaluate_rules_eq, commit]
    exact rules_after_eval _ _ _ _
  | addTask wid tin now =>
    unfold applyOp
    cases hg : get_workflow db.store wid with
    | none =>
      unfold add_task
      simp only [hg]
    | some w =>
      unfold add_task
      simp only [hg, evaluate_rules_eq, commit]
      exact rules_after_eval _ _ _ _
  | addEvent wid ein now =>
    unfold applyOp
    cases hg : get_workflow db.store wid with
    | none =>
      unfold add_event
      simp only [hg]
    | some w =>
      unfold add_event
      simp only [hg, evaluate_rules_eq, commit]
      exact rules_after_eval _ _ _ _
  | updateTaskState wid tid ts now =>
    unfold applyOp
    cases hg : db.store.tasks.find? (fun t => t.id == tid && t.workflow_id == wid) with
    | none =>
      unfold update_task_state
      simp only [hg]
    | some t =>
      unfold update_task_state
      simp only [hg, evaluate_rules_eq, commit]
      cases hg2 : get_workflow
          { db.store with tasks := db.store.tasks.map (fun t0 =>
              if t0.id = tid ∧ t0.workflow_id = wid
              then { t with state := ts, updated_at := now } else t0) } wid with
      | none =>
        simp only [hg2]
        exact rules_after_eval _ _ _ _
      | some w2 =>
        simp only [hg2]
        exact rules_after_eval _ _ _ _

/-- Operations only ever append to the event table, for a session whose
stored rules stay within the documented expression language. -/
lemma applyOp_events (db : DB) (o : Op) (hta : RulesTame db.store) :
    ∃ tail, (applyOp db o).store.events = db.store.events ++ tail := by
  cases o with
  | createWorkflow win now =>
    unfold applyOp create_workflow create_workflow_primitive
    simp only [evaluate_rules_eq, commit]
    exact events_after_eval _ _ _ _ (fun r hr => hta r hr)
  | addTask wid tin now =>
    unfold applyOp
    cases hg : get_workflow db.store wid with
    | none =>
      unfold add_task
      simp only [hg]
      exact ⟨[], (List.append_nil _).symm⟩
    | some w =>
      unfold add_task
      simp only [hg, evaluate_rules_eq, commit]
      exact events_after_eval _ _ _ _ (fun r hr => hta r hr)
  | addEvent wid ein now =>
    unfold applyOp
    cases hg : get_workflow db.store wid with
    | none =>
      unfold add_event
      simp only [hg]
      exact ⟨[], (List.append_nil _).symm⟩
    | some w =>
      unfold add_event
      simp only [hg, evaluate_rules_eq, commit]
      obtain ⟨tail, hev⟩ := events_after_eval
        (setWorkflowRow
          { db.store with events := db.store.events ++
              [⟨db.nextEventId, wid, ein.event_type, json_dumps (ein.payload.getD []), now⟩] }
          { w with updated_at := now }).rules
        ⟨setWorkflowRow
          { db.store with events := db.store.events ++
              [⟨db.nextEventId, wid, ein.event_type, json_dumps (ein.payload.getD []), now⟩] }
          { w with updated_at := now }, db.nextEventId + 1⟩
        wid now (fun r hr => hta r hr)
      refine ⟨⟨db.nextEventId, wid, ein.event_type,
        json_dumps (ein.payload.getD []), now⟩ :: tail, ?_⟩
      rw [hev]
      simp [setWorkflowRow]
  | updateTaskState wid tid ts now =>
    unfold applyOp
    cases hg : db.store.tasks.find? (fun t => t.id == tid && t.workflow_id == wid) with
    | none =>
      unfold update_task_state
      simp only [hg]
      exact ⟨[], (List.append_nil _).symm⟩
    | some t =>
      unfold update_task_state
      simp only [hg, evaluate_rules_eq, commit]
      cases hg2 : get_workflow
          { db.store with tasks := db.store.tasks.map (fun t0 =>
              if t0.id = tid ∧ t0.workflow_id = wid
              then { t with state := ts, updated_at := now } else t0) } wid with
      | none =>
        simp only [hg2]
        exact events_after_eval _ _ _ _ (fun r hr => hta r hr)
      | some w2 =>
        simp only [hg2]
        exact events_after_eval _ _ _ _ (fun r hr => hta r hr)

lemma runOps_rules (db : DB) (ops : List Op) :
    (runOps db ops).store.rules = db.store.rules := by
  induction ops generalizing db with
  | nil => rfl
  | cons o rest ih =>
    show (runOps (applyOp db o) rest).store.rules = _
    rw [ih (applyOp db o), applyOp_rules]

lemma runOps_events (db : DB) (ops : List Op) (hta : RulesTame db.store) :
    ∃ tail, (runOps db ops).store.events = db.store.events ++ tail := by
  induction ops generalizing db with
  | nil => exact ⟨[], (List.append_nil _).symm⟩
  | cons o rest ih =>
    obtain ⟨t1, h1⟩ := applyOp_events db o hta
    obtain ⟨t2, h2⟩ := ih (applyOp db o)
      (fun r hr => hta r (applyOp_rules db o ▸ hr))
    refine ⟨t1 ++ t2, ?_⟩
    show (runOps (applyOp db o) rest).store.events = _
    rw [h2, h1, List.append_assoc]
/-- The task rows created for the initial task list keep name, assignee
and PENDING state, in order, and all point at the given workflow. -/
lemma newTasksFor_fields (wid now : Nat) (ts : List TaskCreate) :
    ∀ tid : Nat,
      (newTasksFor wid tid now ts).map (fun t => (t.name, t.assigned_to, t.state)) =
        ts.map (fun t => (t.name, t.assigned_to, TaskState.pending)) ∧
      ∀ t ∈ newTasksFor wid tid now ts, t.workflow_id = wid := by
  induction ts with
  | nil => intro tid; simp [newTasksFor]
  | cons t ts ih =>
    intro tid
    obtain ⟨h1, h2⟩ := ih (tid + 1)
    refine ⟨?_, ?_⟩
    · simp [newTasksFor, h1]
    · intro t2 ht2
      simp only [newTasksFor, List.mem_cons] at ht2
      cases ht2 with
      | inl he => rw [he]
      | inr hm => exact h2 t2 hm

lemma get_after_eval_isSome (s1 : Store) (nei wid now : Nat)
    (hs : (get_workflow s1 wid).isSome) :
    (get_workflow (evalRulesList s1.rules wid now ⟨s1, nei⟩).store wid).isSome :=
  (evalRulesList_shape s1.rules wid now ⟨s1, nei⟩).2.2 wid hs

/-- An event present in the store before a pass, belonging to the workflow,
is still visible (with its parsed payload) when the workflow is read back
after the pass. -/
lemma read_back_event (s1 : Store) (nei wid now : Nat) (e : Event)
    (hta : ∀ r ∈ s1.rules, ruleTame r = true)
    (hmem : e ∈ s1.events) (hwid : e.workflow_id = wid) (wR : Workflow)
    (hwR : get_workflow (evalRulesList s1.rules wid now ⟨s1, nei⟩).store wid = some wR) :
    (⟨e.id, e.workflow_id, e.event_type, json_loads e.payload, e.created_at⟩ : EventRead) ∈
      (to_workflow_read (evalRulesList s1.rules wid now ⟨s1, nei⟩).store wR).events := by
  obtain ⟨⟨tail, hev⟩, -, -⟩ := evalRulesList_props s1.rules wid now ⟨s1, nei⟩ hta
  unfold to_workflow_read
  simp only [List.mem_map]
  refine ⟨e, ?_, rfl⟩
  rw [List.mem_filter]
  constructor
  · rw [hev]
    exact List.mem_append_left _ hmem
  · simp [hwid, get_workflow_id hwR]

lemma find?_workflows_append_new (ws : List Workflow) (w : Workflow)
    (hfresh : ∀ x ∈ ws, x.id ≠ w.id) :
    List.find? (fun x => x.id == w.id) (ws ++ [w]) = some w := by
  rw [List.find?_append]
  have h1 : List.find? (fun x => x.id == w.id) ws = none := by
    rw [List.find?_eq_none]
    intro x hx
    simpa using hfresh x hx
  rw [h1, Option.none_or]
  simp [List.find?]

/- ## Claim theorems -/

/-- C1 (counterexample): the gateway does not persist an operation as one
single atomic write.  Running `add_task` over a store holding one advance
rule leaves THREE committed snapshots: the pre-state, an intermediate state
with the task added but the rule effect missing, and the final state; the
intermediate snapshot differs from both, so a reader can observe a state
that is neither the pre-operation nor the fully rule-evaluated aggregate. -/
theorem add_task_intermediate_commit_cex :
    (add_task dbAdv 1 ⟨"x", none⟩ 1).map (fun p => p.1.committed) =
      .ok [storeAdv, storeAdvMid, storeAdvPost] ∧
    storeAdvMid ≠ storeAdv ∧ storeAdvMid ≠ storeAdvPost :=
  ⟨rfl, by decide, by decide⟩

/-- C1 (amended): every Mutation Gateway operation persists in exactly TWO
commits, not one — `create_workflow`, `add_task`, `add_event` and
`update_task_state` each commit the primitive edit plus timestamp advance
first (before rule evaluation) and the rule-evaluated aggregate second, so
the commit history gains the intermediate snapshot and then the final one;
no `StorageError` mapping exists, commits being assumed to succeed. -/
theorem gateway_two_commits (db : DB) (wid tid : Nat) (win : WorkflowCreate)
    (tin : TaskCreate) (ein : EventCreate) (ts : TaskState) (now : Nat)
    (w : Workflow) (t : Task)
    (hw : get_workflow db.store wid = some w)
    (ht : db.store.tasks.find? (fun t0 => t0.id == tid && t0.workflow_id == wid) = some t) :
    ((create_workflow db win now).1.committed =
      db.committed ++ [(create_workflow_primitive db win now).1.store,
        (create_workflow db win now).1.store] ∧
     (create_workflow db win now).1.store =
       (evaluate_rules_for_workflow (create_workflow_primitive db win now).1.store
         db.nextEventId db.nextWorkflowId now).store) ∧
    (∃ db3 task, add_task db wid tin now = .ok (db3, task) ∧
      db3.committed = db.committed ++
        [setWorkflowRow { db.store with tasks := db.store.tasks ++
            [⟨db.nextTaskId, wid, tin.name, tin.assigned_to, .pending, now, now⟩] }
          { w with updated_at := now },
         db3.store] ∧
      db3.store = (evaluate_rules_for_workflow
        (setWorkflowRow { db.store with tasks := db.store.tasks ++
            [⟨db.nextTaskId, wid, tin.name, tin.assigned_to, .pending, now, now⟩] }
          { w with updated_at := now }) db.nextEventId wid now).store) ∧
    (∃ db3 ev, add_event db wid ein now = .ok (db3, ev) ∧
      db3.committed = db.committed ++
        [setWorkflowRow { db.store with events := db.store.events ++
            [⟨db.nextEventId, wid, ein.event_type, json_dumps (ein.payload.getD []), now⟩] }
          { w with updated_at := now },
         db3.store] ∧
      db3.store = (evaluate_rules_for_workflow
        (setWorkflowRow { db.store with events := db.store.events ++
            [⟨db.nextEventId, wid, ein.event_type, json_dumps (ein.payload.getD []), now⟩] }
          { w with updated_at := now }) (db.nextEventId + 1) wid now).store) ∧
    (∃ db3 t2, update_task_state db wid tid ts now = .ok (db3, t2) ∧
      db3.committed = db.committed ++
        [setWorkflowRow { db.store with tasks := db.store.tasks.map (fun t0 =>
            if t0.id = tid ∧ t0.workflow_id = wid
            then { t with state := ts, updated_at := now } else t0) }
          { w with updated_at := now },
         db3.store] ∧
      db3.store = (evaluate_rules_for_workflow
        (setWorkflowRow { db.store with tasks := db.store.tasks.map (fun t0 =>
            if t0.id = tid ∧ t0.workflow_id = wid
            then { t with state := ts, updated_at := now } else t0) }
          { w with updated_at := now }) db.nextEventId wid now).store) := by
  refine ⟨⟨?_, rfl⟩, ?_, ?_, ?_⟩
  · simp [create_workflow, create_workflow_primitive, commit, evaluate_rules_eq,
      List.append_assoc]
  · unfold add_task
    simp only [hw, evaluate_rules_eq, commit]
    refine ⟨_, _, rfl, ?_, rfl⟩
    simp [List.append_assoc]
  · unfold add_event
    simp only [hw, evaluate_rules_eq, commit]
    refine ⟨_, _, rfl, ?_, rfl⟩
    simp [List.append_assoc]
  · unfold update_task_state
    simp only [ht, evaluate_rules_eq, commit]
    rw [show get_workflow { db.store with tasks := db.store.tasks.map (fun t0 =>
        if t0.id = tid ∧ t0.workflow_id = wid
        then { t with state := ts, updated_at := now } else t0) } wid = some w from hw]
    refine ⟨_, _, rfl, ?_, rfl⟩
    simp [List.append_assoc]

/-- C1 witness: the two-commit theorem applied to a concrete session with a
workflow and a task, its `add_task` conjunct spelled out. -/
theorem gateway_two_commits_witness :
    get_workflow dbFull.store 1 = some ⟨1, "wf", none, .ordered, 0, 0⟩ ∧
    dbFull.store.tasks.find? (fun t0 => t0.id == 7 && t0.workflow_id == 1) =
      some ⟨7, 1, "t", none, .pending, 0, 0⟩ ∧
    (∃ db3 task, add_task dbFull 1 ⟨"x", none⟩ 1 = .ok (db3, task) ∧
      db3.committed = dbFull.committed ++
        [setWorkflowRow { dbFull.store with tasks := dbFull.store.tasks ++
            [⟨8, 1, "x", none, .pending, 1, 1⟩] }
          { (⟨1, "wf", none, .ordered, 0, 0⟩ : Workflow) with updated_at := 1 },
         db3.store] ∧
      db3.store = (evaluate_rules_for_workflow
        (setWorkflowRow { dbFull.store with tasks := dbFull.store.tasks ++
            [⟨8, 1, "x", none, .pending, 1, 1⟩] }
          { (⟨1, "wf", none, .ordered, 0, 0⟩ : Workflow) with updated_at := 1 }) 1 1 1).store) :=
  ⟨rfl, rfl,
   (gateway_two_commits dbFull 1 7 ⟨"n", none, none⟩ ⟨"x", none⟩ ⟨"e", none⟩ .completed 1
      ⟨1, "wf", none, .ordered, 0, 0⟩ ⟨7, 1, "t", none, .pending, 0, 0⟩ rfl rfl).2.1⟩

/-- C2 (counterexample): `create_rule` performs no expression validation at
all: a rule whose condition text cannot be parsed is stored anyway (the
operation cannot even fail — its type has no error case) and appears in
`list_rules`, contradicting the claimed `InvalidExpression` rejection. -/
theorem create_rule_no_validation_cex :
    list_rules (create_rule dbEmpty
      ⟨"bad rule", none, .malformed "not a valid expression!!", .setState .completed⟩).1.store =
      [⟨1, "bad rule", none, .malformed "not a valid expression!!", .setState .completed⟩] :=
  rfl

/-- C2 (amended): `create_rule` stores every rule unconditionally and
verbatim — condition and action texts are not validated — and the new rule
always appears in `list_rules` afterwards. -/
theorem create_rule_stores_verbatim (db : DB) (rin : RuleCreate) :
    (create_rule db rin).2 =
      ⟨db.nextRuleId, rin.name, rin.description, rin.condition, rin.action⟩ ∧
    (create_rule db rin).1.store.rules = db.store.rules ++ [(create_rule db rin).2] ∧
    (create_rule db rin).2 ∈ list_rules (create_rule db rin).1.store := by
  refine ⟨rfl, rfl, ?_⟩
  show _ ∈ db.store.rules ++ [(create_rule db rin).2]
  exact List.mem_append_right _ (List.mem_singleton_self _)

/-- C3: rule ids are assigned by a strictly increasing counter, so the
stored rule list is always strictly ascending in id and stays so under
`create_rule`; gateway operations never change the rule table; and the
engine runs over exactly `list_rules` of the store, in stored order, as a
pure function — two passes over the same (aggregate, rule-set) pair are the
same function application and give identical results. -/
theorem rules_order_deterministic (db : DB) (rin : RuleCreate) (o : Op)
    (s : Store) (nei wid now : Nat) (h : RulesSorted db) :
    ((list_rules db.store).map Rule.id).Pairwise (· < ·) ∧
    RulesSorted (create_rule db rin).1 ∧
    (applyOp db o).store.rules = db.store.rules ∧
    evaluate_rules_for_workflow s nei wid now =
      evalRulesList (list_rules s) wid now ⟨s, nei⟩ := by
  obtain ⟨hp, hb⟩ := h
  refine ⟨List.Pairwise.map _ (fun a b hab => hab) hp, ⟨?_, ?_⟩,
    applyOp_rules db o, rfl⟩
  · show (db.store.rules ++
      [(⟨db.nextRuleId, rin.name, rin.description, rin.condition, rin.action⟩ : Rule)]).Pairwise
        (fun a b => a.id < b.id)
    rw [List.pairwise_append]
    refine ⟨hp, List.pairwise_singleton _ _, ?_⟩
    intro a ha b hb2
    simp only [List.mem_singleton] at hb2
    rw [hb2]
    exact hb a ha
  · intro r hr
    have hr2 : r ∈ db.store.rules ++
        [(⟨db.nextRuleId, rin.name, rin.description, rin.condition, rin.action⟩ : Rule)] := hr
    show r.id < db.nextRuleId + 1
    rcases List.mem_append.mp hr2 with hold | hnew
    · exact Nat.lt_succ_of_lt (hb r hold)
    · simp only [List.mem_singleton] at hnew
      rw [hnew]
      exact Nat.lt_succ_self _

/-- C3 witness: the determinism theorem applied to the empty session. -/
theorem rules_order_deterministic_witness :
    RulesSorted dbEmpty ∧ ((list_rules dbEmpty.store).map Rule.id).Pairwise (· < ·) :=
  ⟨⟨List.Pairwise.nil, by simp [dbEmpty, storeEmpty]⟩,
   (rules_order_deterministic dbEmpty ⟨"r", none, .stateEq .ordered, .setState .failed⟩
      (Op.addTask 1 ⟨"x", none⟩ 1) storeEmpty 1 1 1
      ⟨List.Pairwise.nil, by simp [dbEmpty, storeEmpty]⟩).1⟩

/-- C4 (counterexample): the spec says a rule whose condition evaluation
throws must not alter the aggregate, but `eval` of a stored condition text
can mutate the env's workflow before raising: a condition modelled on
`workflow.events.clear() or <raising rest>` empties the event log even
though the rule's condition ends in a raise (swallowed by the per-rule
except), so the aggregate IS altered. -/
theorem cond_side_effect_cex :
    (evalCond (CondExpr.effThen .clearEvents (.malformed "boom")) 1 1
        ⟨storeSeeded, 2⟩).2 = .error "SyntaxError: boom" ∧
    ruleStep ⟨1, "bad", none, .effThen .clearEvents (.malformed "boom"), .setState .failed⟩
        1 1 ⟨storeSeeded, 2⟩ =
      ⟨⟨[⟨1, "wf", none, .ordered, 0, 0⟩], [], [], []⟩, 2⟩ ∧
    (⟨⟨[⟨1, "wf", none, .ordered, 0, 0⟩], [], [], []⟩, 2⟩ : EvalSt) ≠ ⟨storeSeeded, 2⟩ :=
  ⟨rfl, rfl, by decide⟩

/-- C4 (amended): rule failures are isolated but not rolled back.  The pass
over `pre ++ bad :: post` always continues into `post` from whatever state
`bad`'s step reached (never aborting, keeping every earlier rule's effect);
a condition that fails without having performed effects leaves the
aggregate unchanged and the pass equals the pass without `bad`; an action
that raises keeps exactly the partial state it reached, and the pass
continues from it; and the engine has no error channel — a triggering
mutation such as `add_task` returns `ok` whatever the stored rules do. -/
theorem rule_failure_isolated (pre post : List Rule) (bad : Rule) (wid now : Nat)
    (st : EvalSt) :
    (evalRulesList (pre ++ bad :: post) wid now st =
      evalRulesList post wid now (ruleStep bad wid now (evalRulesList pre wid now st))) ∧
    (∀ e, evalCond bad.condition wid now (evalRulesList pre wid now st) =
        (evalRulesList pre wid now st, .error e) →
      evalRulesList (pre ++ bad :: post) wid now st =
        evalRulesList (pre ++ post) wid now st) ∧
    (∀ st1 st2 e,
      evalCond bad.condition wid now (evalRulesList pre wid now st) = (st1, .ok true) →
      execAction bad.action wid now st1 = (st2, some e) →
      evalRulesList (pre ++ bad :: post) wid now st = evalRulesList post wid now st2) ∧
    (∀ (db : DB) (wid2 : Nat) (tin : TaskCreate) (now2 : Nat) (w : Workflow),
      get_workflow db.store wid2 = some w →
      ∃ p, add_task db wid2 tin now2 = Except.ok p) := by
  refine ⟨?_, ?_, ?_, ?_⟩
  · rw [evalRulesList_append, evalRulesList_cons]
  · intro e h
    rw [evalRulesList_append, evalRulesList_append, evalRulesList_cons,
      ruleStep_of_cond_error _ _ _ _ _ h]
  · intro st1 st2 e h1 h2
    rw [evalRulesList_append, evalRulesList_cons,
      ruleStep_of_action_error _ _ _ _ _ _ _ h1 h2]
  · intro db wid2 tin now2 w hw
    simp only [add_task, hw]
    exact ⟨_, rfl⟩

/-- C4 witness: a rule with raising condition text between two good rules;
its condition raises without effects, and the pass equals the pass without
it. -/
theorem rule_failure_isolated_witness :
    evalCond (Rule.mk 2 "bad" none (.malformed "oops") (.setState .failed)).condition 1 1
        (evalRulesList [⟨1, "R1", none, .stateEq .ordered, .setState .pending_access⟩]
          1 1 ⟨storeAdv, 1⟩) =
      (evalRulesList [⟨1, "R1", none, .stateEq .ordered, .setState .pending_access⟩]
          1 1 ⟨storeAdv, 1⟩, .error "SyntaxError: oops") ∧
    evalRulesList ([⟨1, "R1", none, .stateEq .ordered, .setState .pending_access⟩] ++
        Rule.mk 2 "bad" none (.malformed "oops") (.setState .failed) ::
          [⟨3, "R2", none, .stateEq .pending_access, .appendEvent "auto_advanced"⟩])
        1 1 ⟨storeAdv, 1⟩ =
      evalRulesList ([⟨1, "R1", none, .stateEq .ordered, .setState .pending_access⟩] ++
        [⟨3, "R2", none, .stateEq .pending_access, .appendEvent "auto_advanced"⟩])
        1 1 ⟨storeAdv, 1⟩ :=
  ⟨rfl,
   (rule_failure_isolated
      [⟨1, "R1", none, .stateEq .ordered, .setState .pending_access⟩]
      [⟨3, "R2", none, .stateEq .pending_access, .appendEvent "auto_advanced"⟩]
      (Rule.mk 2 "bad" none (.malformed "oops") (.setState .failed))
      1 1 ⟨storeAdv, 1⟩).2.1 "SyntaxError: oops" rfl⟩

/-- C5: one shared mutable aggregate per pass — running rule `r` first and
then the rest over the resulting state is exactly the whole pass, so rule
k+1 sees rule k's effects; concretely, with R1 (ORDERED → set
PENDING_ACCESS) and R2 (if PENDING_ACCESS append event "auto_advanced")
stored in that id order, a single `add_task` makes both fire in its one
pass: the workflow ends in PENDING_ACCESS with exactly one new event. -/
theorem rule_effects_visible :
    (∀ (r : Rule) (rs : List Rule) (wid now : Nat) (st : EvalSt),
      evalRulesList (r :: rs) wid now st =
        evalRulesList rs wid now (ruleStep r wid now st)) ∧
    (add_task dbChain 1 ⟨"x", none⟩ 1).map
        (fun p => (p.1.store.workflows.map Workflow.state, p.1.store.events)) =
      .ok ([.pending_access], [⟨1, 1, "auto_advanced", "{}", 1⟩]) :=
  ⟨fun r rs wid now st => rfl, rfl⟩

/-- C6: an unresolvable workflow id makes `add_task` and `add_event` fail
with the not-found error, and a task id not belonging to the workflow makes
`update_task_state` fail likewise; in each case the session is left exactly
as it was — nothing is created anywhere and no aggregate changes. -/
theorem not_found_no_mutation (db : DB) (wid tid : Nat) (tin : TaskCreate)
    (ein : EventCreate) (ts : TaskState) (now : Nat) :
    (get_workflow db.store wid = none →
      add_task db wid tin now = .error (.notFound s!"Workflow {wid} not found") ∧
      add_event db wid ein now = .error (.notFound s!"Workflow {wid} not found") ∧
      applyOp db (.addTask wid tin now) = db ∧
      applyOp db (.addEvent wid ein now) = db) ∧
    (db.store.tasks.find? (fun t => t.id == tid && t.workflow_id == wid) = none →
      update_task_state db wid tid ts now =
        .error (.notFound s!"Task {tid} not found in workflow {wid}") ∧
      applyOp db (.updateTaskState wid tid ts now) = db) := by
  constructor
  · intro hw
    refine ⟨?_, ?_, ?_, ?_⟩
    · simp only [add_task, hw]
    · simp only [add_event, hw]
    · simp only [applyOp, add_task, hw]
    · simp only [applyOp, add_event, hw]
  · intro ht2
    refine ⟨?_, ?_⟩
    · simp only [update_task_state, ht2]
    · simp only [applyOp, update_task_state, ht2]

/-- C6 witness: the not-found theorem at workflow id 999 over the empty
database. -/
theorem not_found_no_mutation_witness :
    get_workflow dbEmpty.store 999 = none ∧
    dbEmpty.store.tasks.find? (fun t => t.id == 5 && t.workflow_id == 999) = none ∧
    add_task dbEmpty 999 ⟨"x", none⟩ 1 =
      .error (.notFound "Workflow 999 not found") ∧
    applyOp dbEmpty (.addTask 999 ⟨"x", none⟩ 1) = dbEmpty ∧
    update_task_state dbEmpty 999 5 .completed 1 =
      .error (.notFound "Task 5 not found in workflow 999") ∧
    applyOp dbEmpty (.updateTaskState 999 5 .completed 1) = dbEmpty :=
  ⟨rfl, rfl,
   ((not_found_no_mutation dbEmpty 999 5 ⟨"x", none⟩ ⟨"e", none⟩ .completed 1).1 rfl).1,
   ((not_found_no_mutation dbEmpty 999 5 ⟨"x", none⟩ ⟨"e", none⟩ .completed 1).1 rfl).2.2.1,
   ((not_found_no_mutation dbEmpty 999 5 ⟨"x", none⟩ ⟨"e", none⟩ .completed 1).2 rfl).1,
   ((not_found_no_mutation dbEmpty 999 5 ⟨"x", none⟩ ⟨"e", none⟩ .completed 1).2 rfl).2⟩

/-- C7: before any rule effect, `create_workflow` builds exactly one new
workflow in ORDERED whose task list is the supplied tasks in the supplied
order, each PENDING (an empty list gives zero tasks), and that pre-rule
aggregate is precisely the first of the two snapshots `create_workflow`
commits. -/
theorem create_workflow_initial_tasks (db : DB) (win : WorkflowCreate) (now : Nat)
    (h : FreshIds db) :
    get_workflow (create_workflow_primitive db win now).1.store
        (create_workflow_primitive db win now).2.id =
      some ⟨db.nextWorkflowId, win.name, win.description, .ordered, now, now⟩ ∧
    ((create_workflow_primitive db win now).1.store.tasks.filter
        (fun t => t.workflow_id == (create_workflow_primitive db win now).2.id)).map
        (fun t => (t.name, t.assigned_to, t.state)) =
      (win.initial_tasks.getD []).map
        (fun t => (t.name, t.assigned_to, TaskState.pending)) ∧
    (create_workflow db win now).1.committed =
      db.committed ++ [(create_workflow_primitive db win now).1.store,
        (create_workflow db win now).1.store] := by
  obtain ⟨hw, ht⟩ := h
  have hfields := newTasksFor_fields db.nextWorkflowId now
    (win.initial_tasks.getD []) db.nextTaskId
  refine ⟨?_, ?_, ?_⟩
  · exact find?_workflows_append_new db.store.workflows
      ⟨db.nextWorkflowId, win.name, win.description, .ordered, now, now⟩
      (fun x hx => Nat.ne_of_lt (hw x hx))
  · show ((db.store.tasks ++
        newTasksFor db.nextWorkflowId db.nextTaskId now (win.initial_tasks.getD [])).filter
          (fun t => t.workflow_id == db.nextWorkflowId)).map
        (fun t => (t.name, t.assigned_to, t.state)) =
      (win.initial_tasks.getD []).map (fun t => (t.name, t.assigned_to, TaskState.pending))
    rw [List.filter_append]
    have h1 : db.store.tasks.filter (fun t => t.workflow_id == db.nextWorkflowId) = [] := by
      rw [List.filter_eq_nil_iff]
      intro t htm
      simpa using Nat.ne_of_lt (ht t htm)
    have h2 : (newTasksFor db.nextWorkflowId db.nextTaskId now
        (win.initial_tasks.getD [])).filter (fun t => t.workflow_id == db.nextWorkflowId) =
        newTasksFor db.nextWorkflowId db.nextTaskId now (win.initial_tasks.getD []) := by
      rw [List.filter_eq_self]
      intro t htm
      simpa using hfields.2 t htm
    rw [h1, h2, List.nil_append]
    exact hfields.1
  · simp [create_workflow, create_workflow_primitive, commit, evaluate_rules_eq,
      List.append_assoc]

/-- C7 witness: the spec's own example, `createWorkflow("Order B", "",
[Task("Enter DOB", null)])` over the empty database. -/
theorem create_workflow_initial_tasks_witness :
    FreshIds dbEmpty ∧
    get_workflow
        (create_workflow_primitive dbEmpty ⟨"Order B", none, some [⟨"Enter DOB", none⟩]⟩ 1).1.store
        (create_workflow_primitive dbEmpty ⟨"Order B", none, some [⟨"Enter DOB", none⟩]⟩ 1).2.id =
      some ⟨1, "Order B", none, .ordered, 1, 1⟩ ∧
    ((create_workflow_primitive dbEmpty ⟨"Order B", none, some [⟨"Enter DOB", none⟩]⟩ 1).1.store.tasks.filter
        (fun t => t.workflow_id ==
          (create_workflow_primitive dbEmpty ⟨"Order B", none, some [⟨"Enter DOB", none⟩]⟩ 1).2.id)).map
        (fun t => (t.name, t.assigned_to, t.state)) =
      [("Enter DOB", none, TaskState.pending)] :=
  ⟨⟨by simp [dbEmpty, storeEmpty], by simp [dbEmpty, storeEmpty]⟩,
   (create_workflow_initial_tasks dbEmpty ⟨"Order B", none, some [⟨"Enter DOB", none⟩]⟩ 1
      ⟨by simp [dbEmpty, storeEmpty], by simp [dbEmpty, storeEmpty]⟩).1,
   (create_workflow_initial_tasks dbEmpty ⟨"Order B", none, some [⟨"Enter DOB", none⟩]⟩ 1
      ⟨by simp [dbEmpty, storeEmpty], by simp [dbEmpty, storeEmpty]⟩).2.1⟩

/-- C8 (counterexample): updatedAt is NOT monotone under the program's real
rule semantics.  A storable rule whose action text is
`workflow.updated_at = workflow.created_at` fires during the pass of a
successful `add_task` and backdates the workflow: `updated_at` goes from 5
before the operation to 0 after, even though the session satisfied the
clock invariants and the operation succeeded. -/
theorem updated_at_decreases_cex :
    TimesOk dbBack ∧ NowsMono dbBack.clock [Op.addTask 1 ⟨"x", none⟩ 6] ∧
    updatedAtOf (runOps dbBack ([Op.addTask 1 ⟨"x", none⟩ 6].take 0)).store 1 = 5 ∧
    updatedAtOf (runOps dbBack ([Op.addTask 1 ⟨"x", none⟩ 6].take 1)).store 1 = 0 ∧
    ¬ (updatedAtOf (runOps dbBack ([Op.addTask 1 ⟨"x", none⟩ 6].take 0)).store 1 ≤
        updatedAtOf (runOps dbBack ([Op.addTask 1 ⟨"x", none⟩ 6].take 1)).store 1) :=
  ⟨by intro w hw
      simp only [dbBack, storeBack, List.mem_singleton] at hw
      subst hw
      decide,
   ⟨by decide, trivial⟩, rfl, rfl, by decide⟩

/-- C8 (amended): along any sequence of gateway operations whose clock
readings never run backwards, every workflow's `updated_at` is
non-decreasing — after each operation it is at least its value before that
operation (failed operations leave the session untouched) — PROVIDED every
stored rule stays within the documented expression language (no timestamp
writes); an action text writing `updated_at` can break this. -/
theorem updated_at_monotone (ops : List Op) :
    ∀ db : DB, RulesTame db.store → TimesOk db → NowsMono db.clock ops →
      ∀ i k : Nat,
        updatedAtOf (runOps db (ops.take k)).store i ≤
          updatedAtOf (runOps db (ops.take (k + 1))).store i := by
  induction ops with
  | nil =>
    intro db hta h hm i k
    simp [runOps]
  | cons o rest ih =>
    intro db hta h hm i k
    obtain ⟨hco, hmr⟩ := hm
    obtain ⟨hT, hclk, hmono⟩ := applyOp_props db o h hco hta
    cases k with
    | zero => exact hmono i
    | succ k =>
      exact ih (applyOp db o) (fun r hr => hta r (applyOp_rules db o ▸ hr)) hT
        (NowsMono_weaken hclk hmr) i k

/-- C8 witness: the monotonicity theorem across one concrete `add_task`
over a tame rule store. -/
theorem updated_at_monotone_witness :
    RulesTame dbAdv.store ∧ TimesOk dbAdv ∧
    NowsMono dbAdv.clock [Op.addTask 1 ⟨"x", none⟩ 1] ∧
    updatedAtOf (runOps dbAdv ([Op.addTask 1 ⟨"x", none⟩ 1].take 0)).store 1 ≤
      updatedAtOf (runOps dbAdv ([Op.addTask 1 ⟨"x", none⟩ 1].take 1)).store 1 :=
  ⟨by intro r hr
      simp only [dbAdv, storeAdv, List.mem_singleton] at hr
      subst hr
      rfl,
   by intro w hw
      simp only [dbAdv, storeAdv, List.mem_singleton] at hw
      subst hw
      decide,
   ⟨by decide, trivial⟩,
   updated_at_monotone [Op.addTask 1 ⟨"x", none⟩ 1] dbAdv
     (by intro r hr
         simp only [dbAdv, storeAdv, List.mem_singleton] at hr
         subst hr
         rfl)
     (by intro w hw
         simp only [dbAdv, storeAdv, List.mem_singleton] at hw
         subst hw
         decide)
     ⟨by decide, trivial⟩ 1 0⟩

/-- C9 (counterexample): the event log is NOT append-only under the
program's real rule semantics.  A storable rule whose action text is
`workflow.events.clear()` fires during the pass of a successful `add_event`
and empties the log (the delete-orphan cascade removes the rows at the
commit), shrinking it from one event to none and discarding the stored
event's fields. -/
theorem events_shrink_cex :
    (runOps dbClear [Op.addEvent 1 ⟨"e", none⟩ 1]).store.events = [] ∧
    dbClear.store.events = [⟨1, 1, "seed", "{}", 0⟩] ∧
    ¬ ∃ tail, (runOps dbClear [Op.addEvent 1 ⟨"e", none⟩ 1]).store.events =
      dbClear.store.events ++ tail := by
  refine ⟨rfl, rfl, ?_⟩
  rintro ⟨tail, ht⟩
  rw [show (runOps dbClear [Op.addEvent 1 ⟨"e", none⟩ 1]).store.events = [] from rfl,
    show dbClear.store.events = [⟨1, 1, "seed", "{}", 0⟩] from rfl] at ht
  simp at ht

/-- C9 (amended): the event table is append-only across any operation
sequence — globally and per workflow, the prior event list is an unchanged
prefix of the later one (length never decreases, no stored event's fields
change) — PROVIDED every stored rule stays within the documented expression
language; an action text clearing or editing `workflow.events` can break
this. -/
theorem events_append_only (db : DB) (ops : List Op) (hta : RulesTame db.store) :
    (∃ tail, (runOps db ops).store.events = db.store.events ++ tail) ∧
    ∀ wid, ∃ tail2,
      eventsFor (runOps db ops).store wid = eventsFor db.store wid ++ tail2 := by
  obtain ⟨tail, h1⟩ := runOps_events db ops hta
  refine ⟨⟨tail, h1⟩, ?_⟩
  intro wid
  refine ⟨tail.filter (fun e => e.workflow_id == wid), ?_⟩
  simp [eventsFor, h1, List.filter_append]

/-- C9 witness: the append-only theorem across one concrete `add_task` over
a tame rule store. -/
theorem events_append_only_witness :
    RulesTame dbAdv.store ∧
    ((∃ tail, (runOps dbAdv [Op.addTask 1 ⟨"x", none⟩ 1]).store.events =
        dbAdv.store.events ++ tail) ∧
      ∀ wid, ∃ tail2,
        eventsFor (runOps dbAdv [Op.addTask 1 ⟨"x", none⟩ 1]).store wid =
          eventsFor dbAdv.store wid ++ tail2) :=
  ⟨by intro r hr
      simp only [dbAdv, storeAdv, List.mem_singleton] at hr
      subst hr
      rfl,
   events_append_only dbAdv [Op.addTask 1 ⟨"x", none⟩ 1]
     (by intro r hr
         simp only [dbAdv, storeAdv, List.mem_singleton] at hr
         subst hr
         rfl)⟩

/-- C10 (counterexample): `addEvent` does append an event carrying the given
payload, but it need not be the LAST event after the operation: a stored
rule that appends its own event in the triggered pass puts a later event
(payload `{}`) behind it, so the read-back last payload differs from `p`. -/
theorem add_event_last_event_cex :
    (add_event dbAuto 1 ⟨"e", some [("k", "v")]⟩ 1).map
        (fun p => (to_workflow_read p.1.store
          ((get_workflow p.1.store 1).getD ⟨0, "", none, .ordered, 0, 0⟩)).events.map
            EventRead.payload) = .ok [some [("k", "v")], some []] ∧
    [some [("k", "v")], some ([] : List (String × String))].getLast? ≠
      some (some [("k", "v")]) :=
  ⟨rfl, by decide⟩

/-- C10 (amended): the event a successful `addEvent` creates stores
`json.dumps` of the payload (`{}` when absent) and its stored text parses
back to exactly the supplied mapping — the payload round-trips through
storage, independent of the stored rules; and when every stored rule stays
within the documented expression language (so no action deletes events),
that event also appears, with its parsed payload, among the events of the
workflow read back after the operation — though rule actions may append
further events after it in the same pass. -/
theorem add_event_payload_roundtrip (db : DB) (wid : Nat) (ein : EventCreate)
    (now : Nat) (w : Workflow) (h : get_workflow db.store wid = some w) :
    (∃ db3 ev, add_event db wid ein now = .ok (db3, ev) ∧
      ev.payload = json_dumps (ein.payload.getD []) ∧
      json_loads ev.payload = some (ein.payload.getD [])) ∧
    (RulesTame db.store →
      ∃ db3 ev wR, add_event db wid ein now = .ok (db3, ev) ∧
        get_workflow db3.store wid = some wR ∧
        (⟨ev.id, wid, ein.event_type, some (ein.payload.getD []), now⟩ : EventRead) ∈
          (to_workflow_read db3.store wR).events) := by
  constructor
  · unfold add_event
    simp only [h, evaluate_rules_eq, commit]
    exact ⟨_, _, rfl, rfl, json_roundtrip _⟩
  · intro hta
    unfold add_event
    simp only [h, evaluate_rules_eq, commit]
    have hs1 : (get_workflow (setWorkflowRow
        { db.store with events := db.store.events ++
            [⟨db.nextEventId, wid, ein.event_type, json_dumps (ein.payload.getD []), now⟩] }
        { w with updated_at := now }) wid).isSome := by
      apply isSome_get_setWorkflowRow
      have hsame : get_workflow { db.store with events := db.store.events ++
          [⟨db.nextEventId, wid, ein.event_type, json_dumps (ein.payload.getD []), now⟩] } wid =
          get_workflow db.store wid := rfl
      rw [hsame, h]
      rfl
    have hsome := get_after_eval_isSome _ (db.nextEventId + 1) wid now hs1
    have hm := read_back_event
      (setWorkflowRow
        { db.store with events := db.store.events ++
            [⟨db.nextEventId, wid, ein.event_type, json_dumps (ein.payload.getD []), now⟩] }
        { w with updated_at := now })
      (db.nextEventId + 1) wid now
      ⟨db.nextEventId, wid, ein.event_type, json_dumps (ein.payload.getD []), now⟩
      (fun r hr => hta r hr)
      (List.mem_append_right _ (List.mem_singleton_self _)) rfl
      _ (Option.some_get hsome).symm
    rw [json_roundtrip (ein.payload.getD [])] at hm
    exact ⟨_, _, _, rfl, (Option.some_get hsome).symm, hm⟩

/-- C10 witness: the round-trip theorem at a concrete two-pair payload over
a tame rule store. -/
theorem add_event_payload_roundtrip_witness :
    get_workflow dbAdv.store 1 = some ⟨1, "wf", none, .ordered, 0, 0⟩ ∧
    RulesTame dbAdv.store ∧
    ((∃ db3 ev, add_event dbAdv 1 ⟨"e", some [("k", "v"), ("k2", "v2")]⟩ 1 = .ok (db3, ev) ∧
      ev.payload = json_dumps [("k", "v"), ("k2", "v2")] ∧
      json_loads ev.payload = some [("k", "v"), ("k2", "v2")]) ∧
    (RulesTame dbAdv.store →
      ∃ db3 ev wR,
        add_event dbAdv 1 ⟨"e", some [("k", "v"), ("k2", "v2")]⟩ 1 = .ok (db3, ev) ∧
        get_workflow db3.store 1 = some wR ∧
        (⟨ev.id, 1, "e", some [("k", "v"), ("k2", "v2")], 1⟩ : EventRead) ∈
          (to_workflow_read db3.store wR).events)) :=
  ⟨rfl,
   by intro r hr
      simp only [dbAdv, storeAdv, List.mem_singleton] at hr
      subst hr
      rfl,
   add_event_payload_roundtrip dbAdv 1 ⟨"e", some [("k", "v"), ("k2", "v2")]⟩ 1
     ⟨1, "wf", none, .ordered, 0, 0⟩ rfl⟩

end PharmAI
